import Mathlib

/-!
Verification of the cobrax interactive command-selection engine.

This file gives a shallow embedding, in Lean, of the core algorithms of the
repository: the catalog tree builder and flattener (src/cobra/command_tree.go,
src/unnamed/part_001), the menu / search-menu / form / confirmation state
machines (src/tui/default_renderer.go, src/tui/search_menu.go), the flag
collector and applier (src/unnamed/part_003, src/cobra/decorate.go), and the
search filter (src/tui/search_menu.go, src/unnamed/part_001).

Modelling conventions:
  - Go strings are Lean Strings; Go byte-level operations (len, slicing,
    strings.Contains) are modelled on the character list, which agrees with
    the Go code on ASCII input (all key names and flag names in this
    repository are ASCII).
  - Go maps used as sets (seen-maps) are modelled as lists of keys;
    map[string]string is modelled as an association list whose update
    replaces the first binding of the key.
  - Go code that can panic (out-of-range indexing) is modelled with Option:
    a none result marks the panic.
  - Functions stored in structs (flag setters, validators) are modelled as
    Lean functions.
-/

/-- Character-list model of strings.Contains (substring test). -/
def strContains (s sub : String) : Bool :=
  s.data.tails.any (fun t => sub.data.isPrefixOf t)

/-- Model of strings.TrimPrefix: drop pre from the front of s when present. -/
def trimLeading (s pre : String) : String :=
  if pre.isPrefixOf s then ⟨s.data.drop pre.data.length⟩ else s

/-- Drop the last character, modelling Go s[:len(s)-1] on ASCII strings. -/
def dropLastChar (s : String) : String := ⟨s.data.dropLast⟩

/-- tui.CommandItem: one node of the internal command tree. -/
inductive CommandItem where
  | mk (ID Name Use Short Long : String) (IsRunnable : Bool)
       (Children : List CommandItem)

def CommandItem.ID : CommandItem → String
  | .mk i _ _ _ _ _ _ => i

def CommandItem.Name : CommandItem → String
  | .mk _ n _ _ _ _ _ => n

def CommandItem.Use : CommandItem → String
  | .mk _ _ u _ _ _ _ => u

def CommandItem.Short : CommandItem → String
  | .mk _ _ _ s _ _ _ => s

def CommandItem.Long : CommandItem → String
  | .mk _ _ _ _ l _ _ => l

def CommandItem.IsRunnable : CommandItem → Bool
  | .mk _ _ _ _ _ r _ => r

def CommandItem.Children : CommandItem → List CommandItem
  | .mk _ _ _ _ _ _ c => c

/-! ## Flattening (src/cobra/command_tree.go, flattenExecutableCommands) -/
mutual

/-- flattenExecutableCommands: emit the node when runnable (with Children
cleared), then recurse into the children; the accumulated path is computed
but never stored in the emitted item (the Go code leaves currentPath
unused in the output). -/
def flattenExecutableCommands : CommandItem → String → List CommandItem
  | CommandItem.mk id name use short long runnable children, path =>
    let currentPath := if path ≠ "" then path ++ " " ++ name else name
    (if runnable then [CommandItem.mk id name use short long true []] else [])
      ++ flattenExecChildren children currentPath

/-- The Go for-loop over item.Children inside flattenExecutableCommands. -/
def flattenExecChildren : List CommandItem → String → List CommandItem
  | [], _ => []
  | c :: cs, p => flattenExecutableCommands c p ++ flattenExecChildren cs p

end

mutual

/-- Depth-first pre-order listing of all nodes of a catalog tree. -/
def preorder : CommandItem → List CommandItem
  | CommandItem.mk i n u s l r cs =>
    CommandItem.mk i n u s l r cs :: preorderList cs

/-- Pre-order of a forest. -/
def preorderList : List CommandItem → List CommandItem
  | [] => []
  | c :: cs => preorder c ++ preorderList cs

end

/-- The copy emitted by flattenExecutableCommands: same fields, IsRunnable
forced to true, Children cleared. -/
def flatCopy (c : CommandItem) : CommandItem :=
  CommandItem.mk c.ID c.Name c.Use c.Short c.Long true []

/-- tui.MenuItem (src/tui/renderer.go). The Metadata map holds opaque host
data never read by the engine and is omitted. -/
structure MenuItem where
  ID : String
  Label : String
  Description : String
  Disabled : Bool
deriving DecidableEq

/-- TreeMenuItem: tree-shaped menu node (embeds MenuItem in Go). -/
inductive TreeMenuItem where
  | mk (item : MenuItem) (Level : Nat) (Path : String)
       (Children : List TreeMenuItem) (Expanded IsLeaf : Bool)

def TreeMenuItem.item : TreeMenuItem → MenuItem
  | .mk m _ _ _ _ _ => m

def TreeMenuItem.Level : TreeMenuItem → Nat
  | .mk _ l _ _ _ _ => l

def TreeMenuItem.Path : TreeMenuItem → String
  | .mk _ _ p _ _ _ => p

def TreeMenuItem.Children : TreeMenuItem → List TreeMenuItem
  | .mk _ _ _ c _ _ => c

def TreeMenuItem.Expanded : TreeMenuItem → Bool
  | .mk _ _ _ _ e _ => e

def TreeMenuItem.IsLeaf : TreeMenuItem → Bool
  | .mk _ _ _ _ _ l => l

/-- TreeMenuData (src/unnamed/part_001). -/
structure TreeMenuData where
  Items : List TreeMenuItem
  FlatMode : Bool

mutual

/-- buildTree (src/unnamed/part_001, lines 53-89): wraps the given items in a
synthetic root with a zero MenuItem; each real node gets
IsLeaf = IsRunnable or childless, and every child of a node is wrapped in a
fresh singleton call of buildTree, exactly as the Go code does. -/
def buildTree : List CommandItem → Nat → Option TreeMenuItem
  | [], _ => none
  | item :: rest, level =>
    some (TreeMenuItem.mk ⟨"", "", "", false⟩ level ""
      (buildNodes (item :: rest) level) false false)
termination_by items _ => 3 * sizeOf items + 1
decreasing_by
  all_goals simp only [CommandItem.mk.sizeOf_spec, List.cons.sizeOf_spec, List.nil.sizeOf_spec]
  all_goals omega

/-- The for-loop over items inside buildTree. -/
def buildNodes : List CommandItem → Nat → List TreeMenuItem
  | [], _ => []
  | CommandItem.mk id name _use short _long runnable children :: rest, level =>
    TreeMenuItem.mk ⟨id, name, short, false⟩ level ""
        (buildKids children level) false (runnable || children.isEmpty)
      :: buildNodes rest level
termination_by items _ => 3 * sizeOf items
decreasing_by
  all_goals simp only [CommandItem.mk.sizeOf_spec, List.cons.sizeOf_spec, List.nil.sizeOf_spec]
  all_goals omega

/-- The inner loop over item.Children inside buildTree: each child goes
through a recursive singleton buildTree call (so the built tree interleaves
label-less wrapper nodes). -/
def buildKids : List CommandItem → Nat → List TreeMenuItem
  | [], _ => []
  | c :: cs, level =>
    (match buildTree [c] (level + 1) with
     | some node => [node]
     | none => []) ++ buildKids cs level
termination_by cs _ => 3 * sizeOf cs + 5
decreasing_by
  all_goals simp only [CommandItem.mk.sizeOf_spec, List.cons.sizeOf_spec, List.nil.sizeOf_spec]
  all_goals omega

end

mutual

/-- flattenTree (src/unnamed/part_001, lines 92-131): extend the path when
the label is nonempty, emit the node when IsLeaf and the label is nonempty,
recurse into children at level+1. The Go nil check is vacuous here (the
model has no nil nodes). -/
def flattenTree : TreeMenuItem → Nat → String → List TreeMenuItem
  | TreeMenuItem.mk mi _ _ children _ lf, level, path =>
    let currentPath :=
      if mi.Label ≠ "" then (if path ≠ "" then path ++ " " ++ mi.Label else mi.Label)
      else path
    (if lf && mi.Label ≠ "" then
        [TreeMenuItem.mk ⟨mi.ID, mi.Label, mi.Description, false⟩ level currentPath [] false true]
      else [])
      ++ flattenTreeList children (level + 1) currentPath

/-- The for-loop over node.Children inside flattenTree. -/
def flattenTreeList : List TreeMenuItem → Nat → String → List TreeMenuItem
  | [], _, _ => []
  | c :: cs, level, path => flattenTree c level path ++ flattenTreeList cs level path

end

/-- BuildTreeMenu (src/unnamed/part_001, lines 24-39). -/
def BuildTreeMenu (commands : List CommandItem) : TreeMenuData :=
  match buildTree commands 0 with
  | some root => { Items := flattenTree root 0 "", FlatMode := true }
  | none => { Items := [], FlatMode := true }

mutual

/-- Depth-first pre-order of a TreeMenuItem tree. -/
def preorderT : TreeMenuItem → List TreeMenuItem
  | TreeMenuItem.mk m lv p cs e lf =>
    TreeMenuItem.mk m lv p cs e lf :: preorderTList cs

/-- Pre-order of a TreeMenuItem forest. -/
def preorderTList : List TreeMenuItem → List TreeMenuItem
  | [] => []
  | c :: cs => preorderT c ++ preorderTList cs

end

/-- FilterTreeMenu: empty query returns the items unchanged; otherwise keep
items whose label, description or path contains the lowercased query. -/
def FilterTreeMenu (items : List TreeMenuItem) (query : String) : List TreeMenuItem :=
  if query = "" then items
  else
    let q := query.toLower
    items.filter (fun it =>
      strContains it.item.Label.toLower q || strContains it.item.Description.toLower q ||
        strContains it.Path.toLower q)

/-- The two message kinds the Update functions of this repository inspect:
tea.KeyMsg (identified by its String()) and tea.WindowSizeMsg. -/
inductive Msg where
  | key (s : String)
  | windowSize (w h : Int)

/-! ## Menu model (src/tui/default_renderer.go, lines 142-205) -/
structure MenuModel where
  items : List MenuItem
  cursor : Nat
  cancelled : Bool
  width : Int
  height : Int
  quitting : Bool
  showDescription : Bool
deriving DecidableEq

/-- newMenuModel (theme field omitted: never touched by Update). -/
def newMenuModel (items : List MenuItem) (width height : Int) : MenuModel :=
  { items := items, cursor := 0, cancelled := false, width := width,
    height := height, quitting := false, showDescription := true }

/-- menuModel.Update. The select branch reads m.items[m.cursor] without a
bounds guard; none models the Go index-out-of-range panic. -/
def MenuModel.Update (m : MenuModel) : Msg → Option MenuModel
  | Msg.key s =>
    if s = "ctrl+c" ∨ s = "q" ∨ s = "esc" then
      some { m with quitting := true, cancelled := true }
    else if s = "up" ∨ s = "k" then
      some (if 0 < m.cursor then { m with cursor := m.cursor - 1 } else m)
    else if s = "down" ∨ s = "j" then
      some (if m.cursor + 1 < m.items.length then { m with cursor := m.cursor + 1 } else m)
    else if s = "enter" ∨ s = " " then
      match m.items.get? m.cursor with
      | none => none
      | some item => some (if !item.Disabled then { m with quitting := true } else m)
    else some m
  | Msg.windowSize w h => some { m with width := w, height := h }

/-! ## Search-menu model (src/tui/search_menu.go) -/
structure SearchMenuModel where
  items : List MenuItem
  filteredItems : List MenuItem
  cursor : Nat
  cancelled : Bool
  quitting : Bool
  width : Int
  height : Int
  showDescription : Bool
  searchMode : Bool
  searchQuery : String
  searchCursor : Nat
deriving DecidableEq

def NewSearchMenuModel (items : List MenuItem) (width height : Int) : SearchMenuModel :=
  { items := items, filteredItems := items, cursor := 0, searchQuery := "",
    searchCursor := 0, width := width, height := height, showDescription := true,
    searchMode := false, cancelled := false, quitting := false }

/-- SearchMenuModel.filterItems: empty query restores the full list; both
branches reset the cursor to 0. -/
def SearchMenuModel.filterItems (m : SearchMenuModel) : SearchMenuModel :=
  if m.searchQuery = "" then { m with filteredItems := m.items, cursor := 0 }
  else
    let query := m.searchQuery.toLower
    { m with
      filteredItems := m.items.filter (fun it =>
        strContains it.Label.toLower query || strContains it.Description.toLower query ||
          strContains it.ID.toLower query),
      cursor := 0 }

/-- SearchMenuModel.handleSearchKey. The Go searchCursor decrement clamps at
0, which truncated Nat subtraction reproduces. -/
def SearchMenuModel.handleSearchKey (m : SearchMenuModel) (s : String) :
    Option SearchMenuModel :=
  if s = "ctrl+c" ∨ s = "q" then some { m with quitting := true, cancelled := true }
  else if s = "esc" then
    some { m with searchMode := false, searchQuery := "", searchCursor := 0,
                  filteredItems := m.items, cursor := 0 }
  else if s = "enter" then
    some (if 0 < m.filteredItems.length then { m with quitting := true } else m)
  else if s = "backspace" then
    some (if 0 < m.searchQuery.length then
        ({ m with searchQuery := dropLastChar m.searchQuery,
                  searchCursor := m.searchCursor - 1 }).filterItems
      else m)
  else if s = "ctrl+u" then
    some ({ m with searchQuery := "", searchCursor := 0 }).filterItems
  else if s = "up" ∨ s = "k" then
    some (if 0 < m.cursor then { m with cursor := m.cursor - 1 } else m)
  else if s = "down" ∨ s = "j" then
    some (if m.cursor + 1 < m.filteredItems.length then { m with cursor := m.cursor + 1 } else m)
  else if s.length = 1 then
    some ({ m with searchQuery := m.searchQuery ++ s,
                   searchCursor := m.searchCursor + 1 }).filterItems
  else some m

/-- SearchMenuModel.handleNavKey: the select branch is guarded by a
non-empty check before reading filteredItems[cursor]. -/
def SearchMenuModel.handleNavKey (m : SearchMenuModel) (s : String) :
    Option SearchMenuModel :=
  if s = "ctrl+c" ∨ s = "q" ∨ s = "esc" then
    some { m with quitting := true, cancelled := true }
  else if s = "up" ∨ s = "k" then
    some (if 0 < m.cursor then { m with cursor := m.cursor - 1 } else m)
  else if s = "down" ∨ s = "j" then
    some (if m.cursor + 1 < m.filteredItems.length then { m with cursor := m.cursor + 1 } else m)
  else if s = "enter" ∨ s = " " then
    if 0 < m.filteredItems.length then
      match m.filteredItems.get? m.cursor with
      | none => none
      | some item => some (if !item.Disabled then { m with quitting := true } else m)
    else some m
  else if s = "/" ∨ s = "ctrl+s" then some { m with searchMode := true }
  else if s = "ctrl+r" then
    some { m with searchQuery := "", filteredItems := m.items, cursor := 0 }
  else some m

def SearchMenuModel.Update (m : SearchMenuModel) : Msg → Option SearchMenuModel
  | Msg.key s => if m.searchMode then m.handleSearchKey s else m.handleNavKey s
  | Msg.windowSize w h => some { m with width := w, height := h }

/-! ## Flag items and the form model (src/tui/renderer.go, default_renderer.go) -/
inductive FlagType where
  | string | bool | int | duration | enum
deriving DecidableEq

structure FlagOption where
  Value : String
  Label : String
  Description : String
deriving DecidableEq

/-- tui.FlagItem. The Go field Type is renamed typ (Type is reserved in
Lean); the Validator func(string) error is an optional function returning
an optional error message; Metadata is omitted as for MenuItem. -/
structure FlagItem where
  Name : String
  ShortName : String
  Description : String
  DefaultValue : String
  CurrentValue : String
  Required : Bool
  typ : FlagType
  SourceCommand : String
  Options : List FlagOption
  Validator : Option (String → Option String)

/-- Read from a map[string]string model (first binding wins). -/
def lookupVal (vals : List (String × String)) (name : String) : Option String :=
  (vals.find? (fun p => p.1 == name)).map (fun p => p.2)

/-- Write to a map[string]string model: replace the first binding or append. -/
def setVal : List (String × String) → String → String → List (String × String)
  | [], n, v => [(n, v)]
  | (k, w) :: rest, n, v =>
    if k == n then (k, v) :: rest else (k, w) :: setVal rest n v

structure FormModel where
  items : List FlagItem
  cursor : Nat
  values : List (String × String)
  cancelled : Bool
  width : Int
  height : Int
  quitting : Bool
  editMode : Bool
  editBuffer : String

/-- newFormModel: values start as each item's DefaultValue. -/
def newFormModel (items : List FlagItem) (width height : Int) : FormModel :=
  { items := items, cursor := 0,
    values := items.foldl (fun vals it => setVal vals it.Name it.DefaultValue) [],
    cancelled := false, width := width, height := height, quitting := false,
    editMode := false, editBuffer := "" }

/-- formModel.handleNavKey. The left/right and e/r branches read
m.items[m.cursor] without a bounds guard. -/
def FormModel.handleNavKey (m : FormModel) (s : String) : Option FormModel :=
  if s = "ctrl+c" ∨ s = "q" ∨ s = "esc" then
    some { m with quitting := true, cancelled := true }
  else if s = "up" ∨ s = "shift+tab" then
    some (if 0 < m.cursor then { m with cursor := m.cursor - 1 } else m)
  else if s = "down" ∨ s = "tab" then
    some (if m.cursor + 1 < m.items.length then { m with cursor := m.cursor + 1 } else m)
  else if s = "enter" ∨ s = " " then some { m with quitting := true }
  else if s = "left" ∨ s = "right" then
    match m.items.get? m.cursor with
    | none => none
    | some item =>
      some (if item.typ = FlagType.bool then
          (if (lookupVal m.values item.Name).getD "" = "true" then
            { m with values := setVal m.values item.Name "false" }
          else { m with values := setVal m.values item.Name "true" })
        else m)
  else if s = "e" ∨ s = "r" then
    match m.items.get? m.cursor with
    | none => none
    | some item =>
      some (if item.typ ≠ FlagType.bool then
          { m with editMode := true,
                   editBuffer := (lookupVal m.values item.Name).getD "" }
        else m)
  else some m

/-- formModel.handleEditKey (src/tui/default_renderer.go, lines 369-397):
enter stores the edit buffer into values[item.Name] and leaves edit mode —
no validator is consulted anywhere in this function. -/
def FormModel.handleEditKey (m : FormModel) (s : String) : Option FormModel :=
  match m.items.get? m.cursor with
  | none => none
  | some item =>
    if s = "enter" then
      some { m with values := setVal m.values item.Name m.editBuffer, editMode := false }
    else if s = "esc" then some { m with editMode := false }
    else if s = "backspace" then
      some (if 0 < m.editBuffer.length then
          { m with editBuffer := dropLastChar m.editBuffer }
        else m)
    else if s.length = 1 then some { m with editBuffer := m.editBuffer ++ s }
    else some m

def FormModel.Update (m : FormModel) : Msg → Option FormModel
  | Msg.key s => if m.editMode then m.handleEditKey s else m.handleNavKey s
  | Msg.windowSize w h => some { m with width := w, height := h }

def FormModel.getValues (m : FormModel) : List (String × String) := m.values

/-! ## Confirmation model (src/tui/default_renderer.go, lines 479-541) -/
structure ConfirmModel where
  title : String
  message : String
  confirmed : Bool
  cancelled : Bool
  width : Int
  height : Int
  cursor : Nat
  quitting : Bool
deriving DecidableEq

def newConfirmModel (title message : String) (width height : Int) : ConfirmModel :=
  { title := title, message := message, confirmed := false, cancelled := false,
    width := width, height := height, cursor := 0, quitting := false }

def ConfirmModel.Update (m : ConfirmModel) : Msg → ConfirmModel
  | Msg.key s =>
    if s = "ctrl+c" ∨ s = "q" ∨ s = "esc" then
      { m with quitting := true, cancelled := true }
    else if s = "left" ∨ s = "h" then
      (if 0 < m.cursor then { m with cursor := m.cursor - 1 } else m)
    else if s = "right" ∨ s = "l" then
      (if m.cursor < 1 then { m with cursor := m.cursor + 1 } else m)
    else if s = "enter" ∨ s = " " then
      { m with quitting := true, confirmed := m.cursor == 0 }
    else m
  | Msg.windowSize w h => { m with width := w, height := h }

/-- What DefaultRenderer.RenderConfirmation hands back to the caller on a
normal exit: confirmResult.confirmed only (line 116 of
src/tui/default_renderer.go); the cancelled flag of the model is dropped. -/
def renderConfirmationResult (m : ConfirmModel) : Bool := m.confirmed

/-- A pflag.Flag as the collector and applier see it: identifying fields,
the current value, the Changed mark, and the setter acceptance predicate
(flag.Value.Set succeeds iff accepts returns true). The flag lists below
are in pflag VisitAll order. -/
structure PFlag where
  Name : String
  Shorthand : String
  Usage : String
  DefValue : String
  value : String
  typeStr : String
  Changed : Bool
  accepts : String → Bool

/-- The engine-reserved names skipped by the collector:
strings.HasPrefix(name, "tui-") or name == "tui". -/
def excludedFlagName (n : String) : Bool :=
  "tui-".isPrefixOf n || n == "tui"

/-- The switch on flag.Value.Type() inside collectFlagItems. -/
def flagTypeOf (ts : String) : FlagType :=
  if ts == "bool" then FlagType.bool
  else if ts == "int" || ts == "int32" || ts == "int64" then FlagType.int
  else if ts == "duration" then FlagType.duration
  else FlagType.string

/-- The tui.FlagItem built for one retained flag (collectFlagItems body). -/
def mkFlagItem (f : PFlag) : FlagItem :=
  { Name := f.Name, ShortName := f.Shorthand, Description := f.Usage,
    DefaultValue := f.DefValue, CurrentValue := f.DefValue, Required := false,
    typ := flagTypeOf f.typeStr, SourceCommand := "", Options := [],
    Validator := none }

/-- One scope's VisitAll loop: skip reserved or already-seen names, else
emit the item and extend the seen set. Returns the items and the final
seen set. -/
def collectScope : List PFlag → List String → List FlagItem × List String
  | [], seen => ([], seen)
  | f :: fs, seen =>
    if excludedFlagName f.Name || seen.contains f.Name then collectScope fs seen
    else
      let r := collectScope fs (f.Name :: seen)
      (mkFlagItem f :: r.1, r.2)

/-- The outer walk from the target command to the root: scopes are the
LocalFlags of the command and of each ancestor, closest first, sharing one
seen set. -/
def collectScopes : List (List PFlag) → List String → List FlagItem
  | [], _ => []
  | s :: rest, seen => (collectScope s seen).1 ++ collectScopes rest (collectScope s seen).2

/-- Command.collectFlagItems: the walk starts with an empty seen set. -/
def collectFlagItems (scopes : List (List PFlag)) : List FlagItem :=
  collectScopes scopes []

/-- Spec-side comparison function (from the dedup wording of the spec):
keep the first flag of each name, in order of first occurrence. -/
def dedupFirstByName : List PFlag → List PFlag
  | [] => []
  | f :: fs => f :: dedupFirstByName (fs.filter (fun g => !(g.Name == f.Name)))
termination_by l => l.length
decreasing_by
  have := List.length_filter_le (fun g => !(g.Name == f.Name)) fs
  simp only [List.length_cons]
  omega

/-- Spec-side eligible flags: the walk order restricted to non-reserved
names. -/
def eligibleFlags (scopes : List (List PFlag)) : List PFlag :=
  scopes.flatten.filter (fun f => !excludedFlagName f.Name)

/-- Replace the first flag with the given name (models mutating the flag
returned by FlagSet.Lookup). -/
def setFirstFlag : List PFlag → String → PFlag → List PFlag
  | [], _, _ => []
  | f :: fs, n, g => if f.Name == n then g :: fs else f :: setFirstFlag fs n g

/-- One (name, value) pair on one scope: Lookup then Value.Set; a rejected
Set leaves the flag untouched (pflag setters mutate only on success) and
produces the wrapped error; Changed is set only after a successful Set
in the part_003 variant. -/
def lookupSet (flags : List PFlag) (n v : String) : List PFlag × Option String :=
  match flags.find? (fun f => f.Name == n) with
  | none => (flags, none)
  | some f =>
    if f.accepts v then
      (setFirstFlag flags n { f with value := v, Changed := true }, none)
    else (flags, some ("failed to set flag " ++ n))

/-- The inner loop of Command.applyFlagValues (src/unnamed/part_003,
lines 369-392) over the values map (modelled as an ordered association
list; Go map iteration order is unspecified, but the early return below is
what the code does at whatever pair fails first): a Set error is returned
immediately, abandoning the remaining pairs. -/
def applyValsScope : List PFlag → List (String × String) → List PFlag × Option String
  | flags, [] => (flags, none)
  | flags, (n, v) :: rest =>
    match lookupSet flags n v with
    | (flags2, none) => applyValsScope flags2 rest
    | (flags2, some e) => (flags2, some e)

/-- Command.applyFlagValues: walk the scope chain from the target command
to the root; an error in one scope aborts the walk (and the whole
function) at once. -/
def Command.applyFlagValues :
    List (List PFlag) → List (String × String) → List (List PFlag) × Option String
  | [], _ => ([], none)
  | s :: rest, vals =>
    match applyValsScope s vals with
    | (s2, none) =>
      let r := Command.applyFlagValues rest vals
      (s2 :: r.1, r.2)
    | (s2, some _e) => (s2 :: rest, some _e)

/-- applyFlagValues (src/cobra/decorate.go, lines 450-458): single scope,
the Set error is ignored (a rejected value leaves the stored value
unchanged), Changed is set unconditionally once the flag is found, and no
error is ever reported. -/
def applyFlagValues : List PFlag → List (String × String) → List PFlag
  | flags, [] => flags
  | flags, (n, v) :: rest =>
    match flags.find? (fun f => f.Name == n) with
    | none => applyFlagValues flags rest
    | some f =>
      applyFlagValues
        (setFirstFlag flags n
          { f with value := if f.accepts v then v else f.value, Changed := true }) rest

/-- An external command definition (a spf13 cobra Command as BuildCommandTree
reads it): name, Use/Short/Long strings, whether Run or RunE is set
(runnable), the Hidden flag, IsAvailableCommand, the completion annotation,
and the ordered child definitions. -/
inductive CmdDef where
  | mk (name use short long : String) (runnable hidden available completionAnn : Bool)
       (children : List CmdDef)

def CmdDef.name : CmdDef → String
  | .mk n _ _ _ _ _ _ _ _ => n

def CmdDef.use : CmdDef → String
  | .mk _ u _ _ _ _ _ _ _ => u

def CmdDef.short : CmdDef → String
  | .mk _ _ s _ _ _ _ _ _ => s

def CmdDef.long : CmdDef → String
  | .mk _ _ _ l _ _ _ _ _ => l

def CmdDef.runnable : CmdDef → Bool
  | .mk _ _ _ _ r _ _ _ _ => r

def CmdDef.hidden : CmdDef → Bool
  | .mk _ _ _ _ _ h _ _ _ => h

def CmdDef.available : CmdDef → Bool
  | .mk _ _ _ _ _ _ a _ _ => a

def CmdDef.completionAnn : CmdDef → Bool
  | .mk _ _ _ _ _ _ _ c _ => c

def CmdDef.children : CmdDef → List CmdDef
  | .mk _ _ _ _ _ _ _ _ cs => cs

/-- isCompletionCommand's name check (src/cobra/decorate.go, lines 393-413). -/
def isCompletionName (n : String) : Bool :=
  n == "bash" || n == "fish" || n == "powershell" || n == "zsh" || n == "pwsh" ||
    n == "completion"

def isCompletionCommand (c : CmdDef) : Bool :=
  isCompletionName c.name || c.completionAnn

/-- The conditions getAvailableCommands keeps a child under. -/
def isAvailableChild (c : CmdDef) : Bool :=
  c.available && !c.hidden && !isCompletionCommand c && !(c.name == "help")

/-- getAvailableCommands (src/cobra/decorate.go, lines 366-390). -/
def getAvailableCommands (cmds : List CmdDef) : List CmdDef :=
  cmds.filter isAvailableChild

mutual

/-- BuildCommandTree (src/cobra/command_tree.go, lines 11-43) on a
(necessarily acyclic) definition tree: mirror the node and recurse into
the available children with the extended path. The Go code first calls
getAvailableCommands(cmd.Commands()) and then loops; here the
availability test is fused into the loop (buildChildrenItems), which the
theorem buildChildrenItems_eq_avail below proves equivalent. The Go nil
check on childItem never fires (BuildCommandTree never returns nil). -/
def buildCommandTree : CmdDef → String → CommandItem
  | CmdDef.mk name use short long runnable _hidden _avail _ca children, path =>
    let currentPath := if path ≠ "" then path ++ " " ++ name else name
    CommandItem.mk name name use short long runnable
      (buildChildrenItems children currentPath)

/-- The loop over getAvailableCommands(cmd.Commands()) inside
BuildCommandTree, with the availability filter applied per element. -/
def buildChildrenItems : List CmdDef → String → List CommandItem
  | [], _ => []
  | c :: cs, p =>
    (if isAvailableChild c then [buildCommandTree c p] else [])
      ++ buildChildrenItems cs p

end

mutual

/-- Comparison definition, written from the spec sentence for BuildTree:
recursively mirror the external definition into the internal tree,
deterministically, with no dependence on any accumulated state. -/
def mirrorOfDefinition : CmdDef → CommandItem
  | CmdDef.mk name use short long runnable _hidden _avail _ca children =>
    CommandItem.mk name name use short long runnable
      (mirrorListOfDefinition children)

def mirrorListOfDefinition : List CmdDef → List CommandItem
  | [] => []
  | c :: cs =>
    (if isAvailableChild c then [mirrorOfDefinition c] else [])
      ++ mirrorListOfDefinition cs

end

/-- GetExecutableCommands (src/cobra/command_tree.go, lines 46-49). -/
def GetExecutableCommands (d : CmdDef) : List CommandItem :=
  flattenExecutableCommands (buildCommandTree d "") ""

/-- The flat menu items built in navigateAndExecute
(src/cobra/decorate.go, lines 219-234): the label is execCmd.Use with the
root name prefix trimmed, falling back to execCmd.Name when Use did not
carry the prefix. -/
def navigateMenuItems (d : CmdDef) : List MenuItem :=
  (GetExecutableCommands d).map (fun e =>
    let displayPath := trimLeading e.Use (d.name ++ " ")
    let label := if displayPath == e.Use then e.Name else displayPath
    { ID := e.ID, Label := label, Description := e.Short, Disabled := false })

/-- The external definition as BuildCommandTree actually consumes it: an
object graph addressed by command name, where cmd.Commands() may lead back
to an ancestor. The fuel argument of the builder below counts recursion
depth; a result of none for every fuel is non-termination of the Go
recursion. -/
structure CmdGraph where
  childrenOf : String → List String
  runnableOf : String → Bool
  hiddenOf : String → Bool
  availableOf : String → Bool
  completionAnnOf : String → Bool
  useOf : String → String
  shortOf : String → String
  longOf : String → String

/-- getAvailableCommands on the graph view. -/
def graphAvailableChildren (g : CmdGraph) (id : String) : List String :=
  (g.childrenOf id).filter (fun n =>
    g.availableOf n && !g.hiddenOf n && !(isCompletionName n || g.completionAnnOf n) &&
      !(n == "help"))

mutual

/-- BuildCommandTree on the graph, with explicit recursion-depth fuel. -/
def buildCommandTreeFuel (g : CmdGraph) : Nat → String → String → Option CommandItem
  | 0, _, _ => none
  | fuel + 1, id, path =>
    let currentPath := if path ≠ "" then path ++ " " ++ id else id
    match buildListFuel g fuel (graphAvailableChildren g id) currentPath with
    | none => none
    | some kids =>
      some (CommandItem.mk id id (g.useOf id) (g.shortOf id) (g.longOf id)
        (g.runnableOf id) kids)
termination_by fuel _ _ => (fuel, 0)
decreasing_by
  exact Prod.Lex.left _ _ (Nat.lt_succ_self _)

/-- The children loop of the graph builder. -/
def buildListFuel (g : CmdGraph) : Nat → List String → String → Option (List CommandItem)
  | _, [], _ => some []
  | fuel, c :: cs, p =>
    match buildCommandTreeFuel g fuel c p with
    | none => none
    | some k =>
      match buildListFuel g fuel cs p with
      | none => none
      | some ks => some (k :: ks)
termination_by fuel l _ => (fuel, l.length + 1)
decreasing_by
  · exact Prod.Lex.right _ (by omega)
  · exact Prod.Lex.right _ (by simp only [List.length_cons]; omega)

end

/-- The concrete cyclic definition: a command whose Commands() contains
itself (cobra only rejects direct self-addition at AddCommand time for the
same pointer; mutually referring commands still yield such a graph). -/
def selfLoopGraph : CmdGraph :=
  { childrenOf := fun _ => ["root"], runnableOf := fun _ => true,
    hiddenOf := fun _ => false, availableOf := fun _ => true,
    completionAnnOf := fun _ => false, useOf := fun n => n,
    shortOf := fun _ => "", longOf := fun _ => "" }

/-! ## Concrete instances used by the claim analyses -/

/-- A catalog node that is a leaf (no children) but not runnable. -/
def xLeafItem : CommandItem := CommandItem.mk "x" "x" "x" "" "" false []

/-- A flag whose validator rejects every input. -/
def badFlagItem : FlagItem :=
  { Name := "p", ShortName := "", Description := "", DefaultValue := "old",
    CurrentValue := "old", Required := false, typ := FlagType.string,
    SourceCommand := "", Options := [], Validator := some (fun _ => some "invalid") }

/-- A form in edit mode on badFlagItem with buffer "bad" over committed
value "old". -/
def badFormModel : FormModel :=
  { items := [badFlagItem], cursor := 0, values := [("p", "old")],
    cancelled := false, width := 80, height := 24, quitting := false,
    editMode := true, editBuffer := "bad" }

/-- Scenario catalog root with children a (runnable leaf) and b, where b
has runnable leaves c and d (all Use strings are the plain cobra
one-word form). -/
def aDef : CmdDef := CmdDef.mk "a" "a" "short a" "" true false true false []

def cDef : CmdDef := CmdDef.mk "c" "c" "short c" "" true false true false []

def dDef : CmdDef := CmdDef.mk "d" "d" "short d" "" true false true false []

def bDef : CmdDef := CmdDef.mk "b" "b" "short b" "" false false true false [cDef, dDef]

def rootDef : CmdDef := CmdDef.mk "root" "root" "" "" false false true false [aDef, bDef]

/-- An int-like flag accepting only "1". -/
def flagA : PFlag :=
  { Name := "a", Shorthand := "", Usage := "", DefValue := "0", value := "0",
    typeStr := "int", Changed := false, accepts := fun s => s == "1" }

/-- A string flag accepting everything. -/
def flagB : PFlag :=
  { Name := "b", Shorthand := "", Usage := "", DefValue := "0", value := "0",
    typeStr := "string", Changed := false, accepts := fun _ => true }

/-- Run the menu model through a sequence of messages (none = a panic). -/
def menuRun (m : MenuModel) : List Msg → Option MenuModel
  | [] => some m
  | msg :: msgs =>
    match MenuModel.Update m msg with
    | none => none
    | some m2 => menuRun m2 msgs

/-- Run the search-menu model through a sequence of messages. -/
def searchRun (m : SearchMenuModel) : List Msg → Option SearchMenuModel
  | [] => some m
  | msg :: msgs =>
    match SearchMenuModel.Update m msg with
    | none => none
    | some m2 => searchRun m2 msgs

/-- The cursor invariant the search menu maintains: an empty filtered list,
or a cursor strictly inside it. -/
def searchInv (m : SearchMenuModel) : Prop :=
  m.filteredItems = [] ∨ m.cursor < m.filteredItems.length

/-- A one-entry menu item list. -/
def demoMenuItem : MenuItem := { ID := "i", Label := "l", Description := "", Disabled := false }

/-! ## Theorems -/

/-- Induction over the nested tree of CommandItem. -/
theorem commandItemInduction {motive : CommandItem → Prop}
    (h : ∀ i n u s l r cs, (∀ c ∈ cs, motive c) → motive (CommandItem.mk i n u s l r cs)) :
    ∀ t, motive t
  | CommandItem.mk i n u s l r cs =>
    h i n u s l r cs (fun c hc =>
      have : sizeOf c < sizeOf (CommandItem.mk i n u s l r cs) := by
        have h1 := List.sizeOf_lt_of_mem hc
        simp only [CommandItem.mk.sizeOf_spec]
        omega
      commandItemInduction h c)
termination_by t => sizeOf t

theorem flattenExecChildren_eq (l : List CommandItem)
    (ih : ∀ c ∈ l, ∀ p, flattenExecutableCommands c p =
      ((preorder c).filter (fun n => n.IsRunnable)).map flatCopy) :
    ∀ p, flattenExecChildren l p =
      ((preorderList l).filter (fun n => n.IsRunnable)).map flatCopy := by
  induction l with
  | nil => intro p; simp [flattenExecChildren, preorderList]
  | cons c cs ihl =>
    intro p
    simp only [flattenExecChildren, preorderList, List.filter_append, List.map_append]
    rw [ih c (by simp), ihl (fun d hd => ih d (by simp [hd]))]

/-- flattenExecutableCommands is exactly: take the depth-first pre-order of
the tree, keep the runnable nodes, emit a child-free copy of each — so a
node is included iff it is runnable, each occurrence exactly once, in
pre-order; the path argument never affects the result. -/
theorem flattenExec_eq (t : CommandItem) :
    ∀ p, flattenExecutableCommands t p =
      ((preorder t).filter (fun n => n.IsRunnable)).map flatCopy := by
  induction t using commandItemInduction with
  | h i n u s l r cs ih =>
    intro p
    simp only [flattenExecutableCommands, preorder, List.filter_cons]
    rw [flattenExecChildren_eq cs (fun c hc => ih c hc)]
    cases r with
    | false => simp [CommandItem.IsRunnable, flatCopy]
    | true =>
      simp [CommandItem.IsRunnable, flatCopy, CommandItem.ID, CommandItem.Name,
        CommandItem.Use, CommandItem.Short, CommandItem.Long]

/-- Induction over the nested tree of TreeMenuItem. -/
theorem treeMenuItemInduction {motive : TreeMenuItem → Prop}
    (h : ∀ m lv p cs e lf, (∀ c ∈ cs, motive c) → motive (TreeMenuItem.mk m lv p cs e lf)) :
    ∀ t, motive t
  | TreeMenuItem.mk m lv p cs e lf =>
    h m lv p cs e lf (fun c hc =>
      have : sizeOf c < sizeOf (TreeMenuItem.mk m lv p cs e lf) := by
        have h1 := List.sizeOf_lt_of_mem hc
        simp only [TreeMenuItem.mk.sizeOf_spec]
        omega
      treeMenuItemInduction h c)
termination_by t => sizeOf t

theorem flattenTreeList_proj (l : List TreeMenuItem)
    (ih : ∀ c ∈ l, ∀ level path, (flattenTree c level path).map (fun e => e.item) =
      ((preorderT c).filter (fun n => n.IsLeaf && n.item.Label ≠ "")).map
        (fun n => ⟨n.item.ID, n.item.Label, n.item.Description, false⟩)) :
    ∀ level path, (flattenTreeList l level path).map (fun e => e.item) =
      ((preorderTList l).filter (fun n => n.IsLeaf && n.item.Label ≠ "")).map
        (fun n => ⟨n.item.ID, n.item.Label, n.item.Description, false⟩) := by
  induction l with
  | nil => intro level path; simp [flattenTreeList, preorderTList]
  | cons c cs ihl =>
    intro level path
    simp only [flattenTreeList, preorderTList, List.filter_append, List.map_append]
    rw [ih c (by simp), ihl (fun d hd => ih d (by simp [hd]))]

/-- Projection to the emitted MenuItem fields: flattenTree emits, in
depth-first pre-order, exactly the nodes whose IsLeaf flag is set and whose
label is nonempty — regardless of whether they are runnable. -/
theorem flattenTree_proj (t : TreeMenuItem) :
    ∀ level path, (flattenTree t level path).map (fun e => e.item) =
      ((preorderT t).filter (fun n => n.IsLeaf && n.item.Label ≠ "")).map
        (fun n => ⟨n.item.ID, n.item.Label, n.item.Description, false⟩) := by
  induction t using treeMenuItemInduction with
  | h m lv p cs e lf ih =>
    intro level path
    simp only [flattenTree, preorderT, List.filter_cons, List.map_append]
    rw [flattenTreeList_proj cs (fun c hc => ih c hc)]
    by_cases hlab : m.Label = ""
    · simp [TreeMenuItem.IsLeaf, TreeMenuItem.item, hlab]
    · cases lf with
      | false => simp [TreeMenuItem.IsLeaf, TreeMenuItem.item, hlab]
      | true => simp [TreeMenuItem.IsLeaf, TreeMenuItem.item, hlab]

theorem collectScope_append (xs : List PFlag) :
    ∀ ys seen, collectScope (xs ++ ys) seen =
      ((collectScope xs seen).1 ++ (collectScope ys (collectScope xs seen).2).1,
       (collectScope ys (collectScope xs seen).2).2) := by
  induction xs with
  | nil => intro ys seen; simp [collectScope]
  | cons f fs ih =>
    intro ys seen
    have happ : (f :: fs) ++ ys = f :: (fs ++ ys) := rfl
    rw [happ]
    by_cases h : (excludedFlagName f.Name || seen.contains f.Name) = true
    · rw [collectScope, collectScope, if_pos h, if_pos h, ih ys seen]
    · rw [collectScope, collectScope, if_neg h, if_neg h]
      simp only [ih ys (f.Name :: seen), List.cons_append]

theorem collectScopes_eq_flat (scopes : List (List PFlag)) :
    ∀ seen, collectScopes scopes seen = (collectScope scopes.flatten seen).1 := by
  induction scopes with
  | nil => intro seen; simp [collectScopes, collectScope]
  | cons s rest ih =>
    intro seen
    rw [collectScopes, List.flatten_cons, collectScope_append, ih (collectScope s seen).2]

theorem collectScope_spec (flags : List PFlag) :
    ∀ seen, (collectScope flags seen).1 =
      (dedupFirstByName (flags.filter
        (fun f => !excludedFlagName f.Name && !seen.contains f.Name))).map mkFlagItem := by
  induction flags with
  | nil => intro seen; simp [collectScope, dedupFirstByName]
  | cons f fs ih =>
    intro seen
    by_cases hex : excludedFlagName f.Name = true
    · have hskip : (excludedFlagName f.Name || seen.contains f.Name) = true := by
        rw [hex, Bool.true_or]
      have hdrop : (!excludedFlagName f.Name && !seen.contains f.Name) = false := by
        rw [hex, Bool.not_true, Bool.false_and]
      rw [collectScope, if_pos hskip, List.filter_cons, hdrop]
      rw [if_neg (by rw [Bool.false_eq_true]; exact not_false)]
      exact ih seen
    · have hexF : excludedFlagName f.Name = false := by
        revert hex; cases excludedFlagName f.Name <;> simp
      by_cases hseen : seen.contains f.Name = true
      · have hskip : (excludedFlagName f.Name || seen.contains f.Name) = true := by
          rw [hseen, Bool.or_true]
        have hdrop : (!excludedFlagName f.Name && !seen.contains f.Name) = false := by
          rw [hseen, Bool.not_true, Bool.and_false]
        rw [collectScope, if_pos hskip, List.filter_cons, hdrop]
        rw [if_neg (by rw [Bool.false_eq_true]; exact not_false)]
        exact ih seen
      · have hseenF : seen.contains f.Name = false := by
          revert hseen; cases seen.contains f.Name <;> simp
        have hskip : ¬((excludedFlagName f.Name || seen.contains f.Name) = true) := by
          rw [hexF, hseenF]; simp
        have hkeep : (!excludedFlagName f.Name && !seen.contains f.Name) = true := by
          rw [hexF, hseenF]; rfl
        rw [collectScope, if_neg hskip, List.filter_cons, hkeep, if_pos rfl]
        show mkFlagItem f :: (collectScope fs (f.Name :: seen)).1 = _
        rw [dedupFirstByName, List.map_cons, ih (f.Name :: seen)]
        have hmain : fs.filter (fun g => !excludedFlagName g.Name &&
            !((f.Name :: seen).contains g.Name)) =
            (fs.filter (fun g => !excludedFlagName g.Name && !seen.contains g.Name)).filter
              (fun g => !(g.Name == f.Name)) := by
          rw [List.filter_filter]
          apply List.filter_congr
          intro g _
          rw [List.contains_cons, Bool.not_or]
          cases excludedFlagName g.Name <;> cases (g.Name == f.Name) <;>
            cases seen.contains g.Name <;> rfl
        rw [hmain]

theorem dedupFirstByName_subset :
    ∀ (l : List PFlag) (g : PFlag), g ∈ dedupFirstByName l → g ∈ l
  | [], g, hg => by simp [dedupFirstByName] at hg
  | f :: fs, g, hg => by
    rw [dedupFirstByName] at hg
    rcases List.mem_cons.mp hg with h | h
    · exact h ▸ List.mem_cons_self f fs
    · have hmem : g ∈ fs.filter (fun x => !(x.Name == f.Name)) :=
        dedupFirstByName_subset _ g h
      exact List.mem_cons_of_mem _ (List.mem_of_mem_filter hmem)
termination_by l _ _ => l.length
decreasing_by
  have := List.length_filter_le (fun x => !(x.Name == f.Name)) fs
  simp only [List.length_cons]
  omega

theorem dedupFirstByName_names_nodup :
    ∀ l : List PFlag, ((dedupFirstByName l).map (fun f => f.Name)).Nodup
  | [] => by simp [dedupFirstByName]
  | f :: fs => by
    rw [dedupFirstByName]
    simp only [List.map_cons, List.nodup_cons]
    refine ⟨?_, dedupFirstByName_names_nodup _⟩
    intro hmem
    rcases List.mem_map.mp hmem with ⟨g, hg, hname⟩
    have hg' := dedupFirstByName_subset _ g hg
    have hne : (!(g.Name == f.Name)) = true := (List.mem_filter.mp hg').2
    rw [hname] at hne
    simp at hne
termination_by l => l.length
decreasing_by
  have := List.length_filter_le (fun x => !(x.Name == f.Name)) fs
  simp only [List.length_cons]
  omega

theorem mkFlagItem_Name (f : PFlag) : (mkFlagItem f).Name = f.Name := rfl

/-- collectFlagItems equals first-occurrence dedup of the eligible flags in
walk order (closest scope first). -/
theorem collectFlagItems_eq_dedup (scopes : List (List PFlag)) :
    collectFlagItems scopes = (dedupFirstByName (eligibleFlags scopes)).map mkFlagItem := by
  rw [collectFlagItems, collectScopes_eq_flat, collectScope_spec, eligibleFlags]
  congr 2
  apply List.filter_congr
  intro g _
  rw [show (List.contains ([] : List String) g.Name) = false from rfl,
    Bool.not_false, Bool.and_true]

theorem applyValsScope_reject (flags : List PFlag) (n v : String)
    (rest : List (String × String)) (f : PFlag)
    (hfind : flags.find? (fun g => g.Name == n) = some f)
    (hrej : f.accepts v = false) :
    applyValsScope flags ((n, v) :: rest) =
      (flags, some ("failed to set flag " ++ n)) := by
  have hls : lookupSet flags n v = (flags, some ("failed to set flag " ++ n)) := by
    rw [lookupSet, hfind]
    simp [hrej]
  rw [applyValsScope]
  split
  · rename_i flags2 heq
    rw [hls] at heq
    exact absurd (congrArg Prod.snd heq) (by simp)
  · rename_i flags2 e heq
    rw [hls] at heq
    have h1 := congrArg Prod.fst heq
    have h2 := congrArg Prod.snd heq
    simp at h1 h2
    rw [h1, h2]

/-! ## Catalog builder (src/cobra/command_tree.go, src/cobra/decorate.go) -/
theorem sizeOf_filter_le {α : Type} [SizeOf α] (p : α → Bool) (l : List α) :
    sizeOf (l.filter p) ≤ sizeOf l := by
  induction l with
  | nil => simp
  | cons a l ih =>
    rw [List.filter_cons]
    by_cases h : p a = true
    · rw [if_pos h]; simp only [List.cons.sizeOf_spec]; omega
    · rw [if_neg h]; simp only [List.cons.sizeOf_spec]; omega

/-- Induction over the nested tree of CmdDef. -/
theorem cmdDefInduction {motive : CmdDef → Prop}
    (h : ∀ n u s l r hd av ca cs,
      (∀ c ∈ cs, motive c) → motive (CmdDef.mk n u s l r hd av ca cs)) :
    ∀ t, motive t
  | CmdDef.mk n u s l r hd av ca cs =>
    h n u s l r hd av ca cs (fun c hc =>
      have : sizeOf c < sizeOf (CmdDef.mk n u s l r hd av ca cs) := by
        have h1 := List.sizeOf_lt_of_mem hc
        simp only [CmdDef.mk.sizeOf_spec]
        omega
      cmdDefInduction h c)
termination_by t => sizeOf t

theorem buildChildrenItems_eq_mirror (l : List CmdDef)
    (ih : ∀ c ∈ l, ∀ p, buildCommandTree c p = mirrorOfDefinition c) :
    ∀ p, buildChildrenItems l p = mirrorListOfDefinition l := by
  induction l with
  | nil => intro p; simp only [buildChildrenItems, mirrorListOfDefinition]
  | cons c cs ihl =>
    intro p
    simp only [buildChildrenItems, mirrorListOfDefinition]
    rw [ih c (by simp) p, ihl (fun d hd => ih d (by simp [hd]))]

/-- BuildCommandTree is a pure mirror of the definition: the accumulated
path parameter never influences the result. -/
theorem buildCommandTree_eq_mirror (d : CmdDef) :
    ∀ p, buildCommandTree d p = mirrorOfDefinition d := by
  induction d using cmdDefInduction with
  | h n u s l r hd av ca cs ih =>
    intro p
    simp only [buildCommandTree, mirrorOfDefinition]
    rw [buildChildrenItems_eq_mirror cs (fun c hc => ih c hc)]

/-- The fused loop equals the source's literal
getAvailableCommands-then-recurse shape. -/
theorem buildChildrenItems_eq_avail (l : List CmdDef) (p : String) :
    buildChildrenItems l p = (getAvailableCommands l).map (fun c => buildCommandTree c p) := by
  induction l with
  | nil => simp [buildChildrenItems, getAvailableCommands]
  | cons c cs ih =>
    simp only [buildChildrenItems, getAvailableCommands, List.filter_cons]
    by_cases h : isAvailableChild c = true
    · rw [if_pos h, if_pos h]
      simp [ih, getAvailableCommands]
    · rw [if_neg h, if_neg h]
      simp [ih, getAvailableCommands]

theorem buildListFuel_none (g : CmdGraph) (fuel : Nat) :
    ∀ (l : List String) (p a : String), a ∈ l →
      buildCommandTreeFuel g fuel a p = none → buildListFuel g fuel l p = none := by
  intro l
  induction l with
  | nil => intro p a ha; exact absurd ha (List.not_mem_nil a)
  | cons c cs ih =>
    intro p a ha hnone
    rcases List.mem_cons.mp ha with h | h
    · subst h
      rw [buildListFuel, hnone]
    · rw [buildListFuel]
      cases hc : buildCommandTreeFuel g fuel c p with
      | none => rfl
      | some k => rw [ih p a h hnone]

/-- A node reported as its own available child makes BuildCommandTree
recurse forever: no recursion depth suffices, and no error value exists to
be returned. -/
theorem buildFuel_selfchild_none (g : CmdGraph) (id : String)
    (hmem : id ∈ graphAvailableChildren g id) :
    ∀ fuel path, buildCommandTreeFuel g fuel id path = none := by
  intro fuel
  induction fuel with
  | zero => intro path; rw [buildCommandTreeFuel]
  | succ n ih =>
    intro path
    rw [buildCommandTreeFuel]
    rw [buildListFuel_none g n (graphAvailableChildren g id) _ id hmem
      (ih _)]

theorem selfLoopGraph_mem : "root" ∈ graphAvailableChildren selfLoopGraph "root" := by
  simp [graphAvailableChildren, selfLoopGraph, isCompletionName]

/-- Claim C9: handling a window-size event in the menu, search-menu, form
and confirmation models changes only the stored width and height; every
other field (cursor, query, filtered list, edit mode, edit buffer,
values) is untouched. -/
theorem C9_resize_frame :
    (∀ (m : MenuModel) (w h : Int),
      MenuModel.Update m (Msg.windowSize w h) = some { m with width := w, height := h })
    ∧ (∀ (m : SearchMenuModel) (w h : Int),
      SearchMenuModel.Update m (Msg.windowSize w h) = some { m with width := w, height := h })
    ∧ (∀ (m : FormModel) (w h : Int),
      FormModel.Update m (Msg.windowSize w h) = some { m with width := w, height := h })
    ∧ (∀ (m : ConfirmModel) (w h : Int),
      ConfirmModel.Update m (Msg.windowSize w h) = { m with width := w, height := h }) :=
  ⟨fun _ _ _ => rfl, fun _ _ _ => rfl, fun _ _ _ => rfl, fun _ _ _ => rfl⟩

/-- Claim C8: the empty query is the identity filter — FilterTreeMenu
returns the entries unchanged, and the search-menu model restores the full
item list (with cursor 0) when its query is empty. -/
theorem C8_empty_query_identity :
    (∀ entries : List TreeMenuItem, FilterTreeMenu entries "" = entries)
    ∧ (∀ m : SearchMenuModel, m.searchQuery = "" →
      m.filterItems.filteredItems = m.items ∧ m.filterItems.cursor = 0) := by
  constructor
  · intro entries
    rw [FilterTreeMenu, if_pos rfl]
  · intro m h
    rw [SearchMenuModel.filterItems, if_pos h]
    exact ⟨rfl, rfl⟩

theorem C8_witness :
    (NewSearchMenuModel [demoMenuItem] 80 24).filterItems.filteredItems =
      (NewSearchMenuModel [demoMenuItem] 80 24).items ∧
    (NewSearchMenuModel [demoMenuItem] 80 24).filterItems.cursor = 0 :=
  C8_empty_query_identity.2 (NewSearchMenuModel [demoMenuItem] 80 24) rfl

/-- Claim C2 (amended): in editing mode, enter always commits the edit
buffer into values[name] and leaves edit mode; the parameter's Validator
is never consulted, so input the validator rejects is committed all the
same. -/
theorem C2_commit_unvalidated (m : FormModel) (item : FlagItem)
    (h : m.items.get? m.cursor = some item) :
    FormModel.handleEditKey m "enter" =
      some { m with values := setVal m.values item.Name m.editBuffer,
                    editMode := false } := by
  rw [FormModel.handleEditKey, h]
  rfl

theorem C2_witness :
    FormModel.handleEditKey badFormModel "enter" =
      some { badFormModel with
               values := setVal badFormModel.values badFlagItem.Name badFormModel.editBuffer,
               editMode := false } :=
  C2_commit_unvalidated badFormModel badFlagItem rfl

/-- Claim C2 counterexample: badFormModel is in editing mode on a
parameter whose validator rejects every input, with buffer "bad" over
committed value "old"; pressing enter nevertheless commits "bad" and
leaves editing mode. -/
theorem C2_counterexample :
    (badFlagItem.Validator.map (fun v => v "bad")) = some (some "invalid") ∧
    ((FormModel.handleEditKey badFormModel "enter").map
      (fun m2 => (lookupVal m2.values "p", m2.editMode))) = some (some "bad", false) :=
  ⟨rfl, rfl⟩

/-- Claim C5: collectFlagItems never returns two items with the same name,
and equals the first-occurrence dedup of the eligible flags in the walk
from the target command outward (closest scope wins). -/
theorem C5_collect_dedup :
    (∀ scopes : List (List PFlag),
      collectFlagItems scopes = (dedupFirstByName (eligibleFlags scopes)).map mkFlagItem)
    ∧ ∀ scopes : List (List PFlag),
      ((collectFlagItems scopes).map (fun i => i.Name)).Nodup := by
  refine ⟨collectFlagItems_eq_dedup, fun scopes => ?_⟩
  rw [collectFlagItems_eq_dedup, List.map_map]
  have hcomp : ((fun i : FlagItem => i.Name) ∘ mkFlagItem) = fun f : PFlag => f.Name := by
    funext f; rfl
  rw [hcomp]
  exact dedupFirstByName_names_nodup _

/-- Claim C6 (amended): when a setter rejects a value, both variants leave
the rejected flag's prior state unchanged, but part_003's
Command.applyFlagValues returns the error immediately and does NOT apply
the remaining names, while decorate.go's applyFlagValues continues with
the remaining names, marks the flag Changed, and reports no error. -/
theorem C6_apply_behavior :
    (∀ (s : List PFlag) (ancestors : List (List PFlag)) (n v : String)
        (rest : List (String × String)) (f : PFlag),
      s.find? (fun g => g.Name == n) = some f → f.accepts v = false →
      Command.applyFlagValues (s :: ancestors) ((n, v) :: rest) =
        (s :: ancestors, some ("failed to set flag " ++ n)))
    ∧ (∀ (flags : List PFlag) (n v : String) (rest : List (String × String)) (f : PFlag),
      flags.find? (fun g => g.Name == n) = some f → f.accepts v = false →
      applyFlagValues flags ((n, v) :: rest) =
        applyFlagValues (setFirstFlag flags n { f with Changed := true }) rest) := by
  constructor
  · intro s ancestors n v rest f hf hr
    have h1 := applyValsScope_reject s n v rest f hf hr
    rw [Command.applyFlagValues, h1]
  · intro flags n v rest f hf hr
    rw [applyFlagValues, hf]
    simp [hr]

theorem C6_witness :
    Command.applyFlagValues [[flagA]] [("a", "x"), ("b", "2")] =
      ([[flagA]], some ("failed to set flag a")) :=
  C6_apply_behavior.1 [flagA] [] "a" "x" [("b", "2")] flagA rfl rfl

/-- Claim C6 counterexample: with values {a ↦ x, b ↦ 2} where flag a's
setter rejects "x", part_003's applyFlagValues returns the error and flag
b is left unapplied (value still "0", Changed still false) — the claim's
"continues with the remaining names" fails. -/
theorem C6_counterexample :
    (Command.applyFlagValues [[flagA, flagB]] [("a", "x"), ("b", "2")]).2 =
      some ("failed to set flag a") ∧
    (((Command.applyFlagValues [[flagA, flagB]] [("a", "x"), ("b", "2")]).1.flatten.find?
      (fun f => f.Name == "b")).map (fun f => (f.value, f.Changed))) = some ("0", false) :=
  ⟨rfl, rfl⟩

/-- Claim C3 (amended): BuildCommandTree performs no cycle detection and
has no error result: on a definition graph that reports a node as its own
available child the recursion exhausts every depth budget (it never
terminates, rather than failing fast with a structural error), while on an
acyclic definition it returns the mirrored tree, independent of the
accumulated path and with no side effects. -/
theorem C3_build_no_cycle_check :
    (∀ (g : CmdGraph) (id : String), id ∈ graphAvailableChildren g id →
      ∀ fuel path, buildCommandTreeFuel g fuel id path = none)
    ∧ ∀ (d : CmdDef) (p : String), buildCommandTree d p = mirrorOfDefinition d :=
  ⟨buildFuel_selfchild_none, fun d p => buildCommandTree_eq_mirror d p⟩

/-- Claim C3 counterexample: on the self-loop definition graph the claimed
fail-fast error never appears — the build terminates at no recursion
depth at all. -/
theorem C3_counterexample :
    ¬ ∃ fuel, (buildCommandTreeFuel selfLoopGraph fuel "root" "").isSome = true := by
  rintro ⟨fuel, h⟩
  rw [buildFuel_selfchild_none selfLoopGraph "root" selfLoopGraph_mem fuel ""] at h
  simp at h

theorem C3_witness :
    buildCommandTreeFuel selfLoopGraph 5 "root" "" = none ∧
    buildCommandTree aDef "x" = mirrorOfDefinition aDef :=
  ⟨C3_build_no_cycle_check.1 selfLoopGraph "root" selfLoopGraph_mem 5 "",
   C3_build_no_cycle_check.2 aDef "x"⟩

/-- Claim C7 (amended): the confirmation gate starts with confirm at
index 0 and deny at index 1; left and right toggle with clamping and never
wrap; enter finalizes with confirmed = (cursor == 0); escape marks the
model cancelled — but RenderConfirmation returns only the confirmed
boolean, so at the renderer interface a cancelled dialog is reported
exactly like answering deny (false), not as a distinct outcome. -/
theorem C7_confirm_gate :
    (∀ (t msg : String) (w h : Int), (newConfirmModel t msg w h).cursor = 0 ∧
      (newConfirmModel t msg w h).confirmed = false ∧
      (newConfirmModel t msg w h).cancelled = false)
    ∧ (∀ m : ConfirmModel, m.cursor ≤ 1 →
      (ConfirmModel.Update m (Msg.key "left")).cursor ≤ 1 ∧
      (ConfirmModel.Update m (Msg.key "right")).cursor ≤ 1)
    ∧ (∀ m : ConfirmModel, m.cursor = 0 →
      (ConfirmModel.Update m (Msg.key "left")).cursor = 0 ∧
      (ConfirmModel.Update m (Msg.key "right")).cursor = 1)
    ∧ (∀ m : ConfirmModel, m.cursor = 1 →
      (ConfirmModel.Update m (Msg.key "left")).cursor = 0 ∧
      (ConfirmModel.Update m (Msg.key "right")).cursor = 1)
    ∧ (∀ m : ConfirmModel, ConfirmModel.Update m (Msg.key "enter") =
      { m with quitting := true, confirmed := m.cursor == 0 })
    ∧ (∀ m : ConfirmModel,
      ConfirmModel.Update m (Msg.key "esc") = { m with quitting := true, cancelled := true } ∧
      renderConfirmationResult (ConfirmModel.Update m (Msg.key "esc")) = m.confirmed) := by
  refine ⟨fun t msg w h => ⟨rfl, rfl, rfl⟩, ?_, ?_, ?_, ?_, ?_⟩
  · intro m hm
    constructor <;> simp [ConfirmModel.Update] <;> split_ifs <;>
      first
      | omega
      | (simp; omega)
  · intro m hm
    constructor <;> simp [ConfirmModel.Update, hm]
  · intro m hm
    constructor <;> simp [ConfirmModel.Update, hm]
  · intro m
    simp [ConfirmModel.Update]
  · intro m
    exact ⟨rfl, rfl⟩

theorem C7_witness :
    ((ConfirmModel.Update (newConfirmModel "t" "m" 80 24) (Msg.key "left")).cursor ≤ 1 ∧
      (ConfirmModel.Update (newConfirmModel "t" "m" 80 24) (Msg.key "right")).cursor ≤ 1) ∧
    ((ConfirmModel.Update (newConfirmModel "t" "m" 80 24) (Msg.key "left")).cursor = 0 ∧
      (ConfirmModel.Update (newConfirmModel "t" "m" 80 24) (Msg.key "right")).cursor = 1) ∧
    ((ConfirmModel.Update (ConfirmModel.Update (newConfirmModel "t" "m" 80 24)
        (Msg.key "right")) (Msg.key "left")).cursor = 0 ∧
      (ConfirmModel.Update (ConfirmModel.Update (newConfirmModel "t" "m" 80 24)
        (Msg.key "right")) (Msg.key "right")).cursor = 1) :=
  ⟨C7_confirm_gate.2.1 (newConfirmModel "t" "m" 80 24) (by decide),
   C7_confirm_gate.2.2.1 (newConfirmModel "t" "m" 80 24) (by decide),
   C7_confirm_gate.2.2.2.1
     (ConfirmModel.Update (newConfirmModel "t" "m" 80 24) (Msg.key "right")) (by decide)⟩

/-- Claim C7 counterexample: at the renderer interface the outcome of
escape equals the outcome of answering deny — the model's cancelled flag
is distinct, but RenderConfirmation drops it, so the claimed distinct
cancelled outcome does not exist in what renderConfirmation returns. -/
theorem C7_counterexample :
    (ConfirmModel.Update (newConfirmModel "Confirm" "run?" 80 24) (Msg.key "esc")).cancelled
        = true ∧
    (ConfirmModel.Update (ConfirmModel.Update (newConfirmModel "Confirm" "run?" 80 24)
        (Msg.key "right")) (Msg.key "enter")).cancelled = false ∧
    renderConfirmationResult
        (ConfirmModel.Update (newConfirmModel "Confirm" "run?" 80 24) (Msg.key "esc")) =
      renderConfirmationResult
        (ConfirmModel.Update (ConfirmModel.Update (newConfirmModel "Confirm" "run?" 80 24)
          (Msg.key "right")) (Msg.key "enter")) := by
  refine ⟨rfl, ?_, ?_⟩ <;> decide

/-- Claim C1 (amended): flattenExecutableCommands emits exactly the
runnable nodes, in depth-first pre-order, each occurrence once, as
child-free copies; the flattenTree variant instead emits, in pre-order,
exactly the nodes whose IsLeaf flag is set and whose label is nonempty —
and buildTree sets IsLeaf to (runnable OR childless), so a non-runnable
childless node is emitted by that variant. -/
theorem C1_flatten_characterization :
    (∀ (t : CommandItem) (p : String),
      flattenExecutableCommands t p =
        ((preorder t).filter (fun n => n.IsRunnable)).map flatCopy)
    ∧ (∀ (t : TreeMenuItem) (level : Nat) (path : String),
      (flattenTree t level path).map (fun e => e.item) =
        ((preorderT t).filter (fun n => n.IsLeaf && n.item.Label ≠ "")).map
          (fun n => ⟨n.item.ID, n.item.Label, n.item.Description, false⟩))
    ∧ ∀ (id name use short long : String) (runnable : Bool)
        (children rest : List CommandItem) (level : Nat),
      buildNodes (CommandItem.mk id name use short long runnable children :: rest) level =
        TreeMenuItem.mk ⟨id, name, short, false⟩ level ""
            (buildKids children level) false (runnable || children.isEmpty)
          :: buildNodes rest level := by
  refine ⟨fun t p => flattenExec_eq t p, fun t level path => flattenTree_proj t level path, ?_⟩
  intro id name use short long runnable children rest level
  rw [buildNodes]

/-- Claim C1 counterexample: xLeafItem is not runnable, yet BuildTreeMenu
(buildTree followed by flattenTree) lists it in the flattened items —
refuting "a node that is not runnable is never included, even when it is a
leaf" for the flattenTree variant. -/
theorem C1_counterexample :
    xLeafItem.IsRunnable = false ∧
    ((BuildTreeMenu [xLeafItem]).Items.map (fun t => t.item.Label)) = ["x"] := by
  constructor
  · rfl
  · simp [BuildTreeMenu, buildTree, buildNodes, buildKids, flattenTree, flattenTreeList,
      xLeafItem, TreeMenuItem.item]

/-- Claim C4 (code bug, evaluation at the failing input): for the catalog
root with children a and b, where b has runnable children c and d, the
flat menu labels computed by navigateAndExecute over
GetExecutableCommands are the bare names [a, c, d] — the accumulated path
is discarded during flattening and the Use-prefix trim recovers nothing —
not the claimed display paths [a, "b c", "b d"]. -/
theorem C4_labels_eval :
    (navigateMenuItems rootDef).map (fun it => it.Label) = ["a", "c", "d"] := by
  decide

theorem list_nil_or_len_pos {α : Type} (l : List α) : l = [] ∨ 0 < l.length := by
  cases l <;> simp

theorem inv_of_cursor_zero (m : SearchMenuModel) (h : m.cursor = 0) : searchInv m := by
  rcases list_nil_or_len_pos m.filteredItems with h2 | h2
  · exact Or.inl h2
  · exact Or.inr (by rw [h]; exact h2)

theorem filterItems_cursor (m : SearchMenuModel) : m.filterItems.cursor = 0 := by
  rw [SearchMenuModel.filterItems]
  split_ifs <;> rfl

theorem menuStep_safe (m : MenuModel) (msg : Msg) (h : m.cursor < m.items.length) :
    ∃ m2, MenuModel.Update m msg = some m2 ∧ m2.cursor < m2.items.length ∧
      m2.items = m.items := by
  cases msg with
  | windowSize w hh => exact ⟨_, rfl, h, rfl⟩
  | key s =>
    rw [MenuModel.Update]
    split_ifs with h1 h2 h3 h4 h5 h6
    case _ => exact ⟨_, rfl, h, rfl⟩
    case _ => exact ⟨_, rfl, by simp; omega, rfl⟩
    case _ => exact ⟨_, rfl, h, rfl⟩
    case _ => exact ⟨_, rfl, by simp; omega, rfl⟩
    case _ => exact ⟨_, rfl, h, rfl⟩
    case _ =>
      rw [List.get?_eq_get h]
      by_cases hd : m.items[m.cursor].Disabled
      · exact ⟨m, by simp [hd], h, rfl⟩
      · exact ⟨{ m with quitting := true }, by simp [hd], h, rfl⟩
    case _ => exact ⟨_, rfl, h, rfl⟩

theorem handleSearchKey_safe (m : SearchMenuModel) (s : String) (h : searchInv m) :
    ∃ m2, SearchMenuModel.handleSearchKey m s = some m2 ∧ searchInv m2 := by
  rw [SearchMenuModel.handleSearchKey]
  split_ifs <;>
    first
    | exact ⟨_, rfl, h⟩
    | exact ⟨_, rfl, inv_of_cursor_zero _ rfl⟩
    | exact ⟨_, rfl, inv_of_cursor_zero _ (filterItems_cursor _)⟩
    | exact ⟨_, rfl, by
        rcases h with hh | hh
        · exact Or.inl hh
        · exact Or.inr (by simp; omega)⟩

theorem handleNavKey_safe (m : SearchMenuModel) (s : String) (h : searchInv m) :
    ∃ m2, SearchMenuModel.handleNavKey m s = some m2 ∧ searchInv m2 := by
  rw [SearchMenuModel.handleNavKey]
  split_ifs with h1 h2 h3 h4 h5 h6 h7 h8 h9
  case _ => exact ⟨_, rfl, h⟩
  case _ => exact ⟨_, rfl, by
    rcases h with hh | hh
    · exact Or.inl hh
    · exact Or.inr (by simp; omega)⟩
  case _ => exact ⟨_, rfl, h⟩
  case _ => exact ⟨_, rfl, by
    rcases h with hh | hh
    · exact Or.inl hh
    · exact Or.inr (by simp; omega)⟩
  case _ => exact ⟨_, rfl, h⟩
  case _ =>
    have hcur : m.cursor < m.filteredItems.length := by
      rcases h with hh | hh
      · rw [hh] at h7; simp at h7
      · exact hh
    rw [List.get?_eq_get hcur]
    by_cases hd : m.filteredItems[m.cursor].Disabled
    · exact ⟨m, by simp [hd], h⟩
    · exact ⟨{ m with quitting := true }, by simp [hd], h⟩
  case _ => exact ⟨_, rfl, h⟩
  case _ => exact ⟨_, rfl, h⟩
  case _ => exact ⟨_, rfl, inv_of_cursor_zero _ rfl⟩
  case _ => exact ⟨_, rfl, h⟩

theorem searchStep_safe (m : SearchMenuModel) (msg : Msg) (h : searchInv m) :
    ∃ m2, SearchMenuModel.Update m msg = some m2 ∧ searchInv m2 := by
  cases msg with
  | windowSize w hh => exact ⟨_, rfl, h⟩
  | key s =>
    rw [SearchMenuModel.Update]
    cases hsm : m.searchMode with
    | true => simpa using handleSearchKey_safe m s h
    | false => simpa using handleNavKey_safe m s h

theorem menuRun_safe (msgs : List Msg) :
    ∀ m : MenuModel, m.cursor < m.items.length →
      ∃ m2, menuRun m msgs = some m2 ∧ m2.cursor < m2.items.length ∧
        m2.items = m.items := by
  induction msgs with
  | nil => intro m h; exact ⟨m, rfl, h, rfl⟩
  | cons msg msgs ih =>
    intro m h
    obtain ⟨m2, hstep, hinv, hitems⟩ := menuStep_safe m msg h
    obtain ⟨m3, hrun, hinv3, hitems3⟩ := ih m2 hinv
    refine ⟨m3, ?_, hinv3, hitems ▸ hitems3⟩
    rw [menuRun, hstep]
    exact hrun

theorem searchRun_safe (msgs : List Msg) :
    ∀ m : SearchMenuModel, searchInv m →
      ∃ m2, searchRun m msgs = some m2 ∧ searchInv m2 := by
  induction msgs with
  | nil => intro m h; exact ⟨m, rfl, h⟩
  | cons msg msgs ih =>
    intro m h
    obtain ⟨m2, hstep, hinv⟩ := searchStep_safe m msg h
    obtain ⟨m3, hrun, hinv3⟩ := ih m2 hinv
    refine ⟨m3, ?_, hinv3⟩
    rw [searchRun, hstep]
    exact hrun

/-- Claim C10 (amended): for every sequence of events, the menu model
started with the cursor inside a nonempty items list never indexes out of
bounds (and keeps the cursor in bounds), and the search-menu model with
its guarded select never indexes out of bounds under its cursor
invariant; but the select key on an empty menu items list reads
items[0] out of range, modelled as the none result. -/
theorem C10_bounds_safety :
    (∀ (m : MenuModel) (msgs : List Msg), m.cursor < m.items.length →
      ∃ m2, menuRun m msgs = some m2 ∧ m2.cursor < m2.items.length ∧
        m2.items = m.items)
    ∧ ∀ (m : SearchMenuModel) (msgs : List Msg), searchInv m →
      ∃ m2, searchRun m msgs = some m2 ∧ searchInv m2 :=
  ⟨fun m msgs h => menuRun_safe msgs m h, fun m msgs h => searchRun_safe msgs m h⟩

/-- Claim C10 counterexample: with the empty items list, the select key
makes menuModel.Update read items[cursor] out of range (the modelled
panic), so the claimed safety on an empty RenderCommandMenu list fails. -/
theorem C10_counterexample :
    MenuModel.Update (newMenuModel [] 80 24) (Msg.key "enter") = none := by
  decide

theorem C10_witness :
    ∃ m2, menuRun (newMenuModel [demoMenuItem] 80 24) [Msg.key "enter"] = some m2 ∧
      m2.cursor < m2.items.length ∧ m2.items = (newMenuModel [demoMenuItem] 80 24).items :=
  C10_bounds_safety.1 (newMenuModel [demoMenuItem] 80 24) [Msg.key "enter"] (by decide)
